import Mathlib

/-!
Verification of the bambutler record-reconciliation engine (`src/lib.rs`)
against its specification.

Shallow embedding conventions:
* Rust byte slices (`&[u8]`, `Vec<u8>`) become `List Nat` (each element a byte
  value; the code never does byte arithmetic, only equality, so no modular
  reduction is needed).
* Machine integers carried inside tag values (`i8`, `u16`, ...) pass through
  the code untouched, so they are embedded as `Int` / `Nat` payloads.
* `f32` / `f64` payloads are moved verbatim by the code (no arithmetic), so
  they are embedded by their 32- and 64-bit patterns as `Nat`.
* Fallible operations (`Result` in Rust) become `Except Unit`.
* The `rust_htslib` BAM reader/writer is external I/O; a file is embedded as
  the list of read results its record iterator yields.
-/

namespace Bambutler

/-- Byte strings (`Vec<u8>` / `&[u8]` in the source). -/
abbrev Bytes := List Nat

/-- The `rust_htslib::bam::record::Aux` enum: one decoded auxiliary field
value as the external library hands it to this crate.  Float payloads are
carried as their raw bit patterns (the crate moves them verbatim). -/
inductive Aux where
  | Char (v : Nat)
  | I8 (v : Int)
  | U8 (v : Nat)
  | I16 (v : Int)
  | U16 (v : Nat)
  | I32 (v : Int)
  | U32 (v : Nat)
  | Float (bits : Nat)
  | Double (bits : Nat)
  | AuxStr (v : Bytes)
  | HexByteArray (v : Bytes)
  | ArrayI8 (v : List Int)
  | ArrayU8 (v : List Nat)
  | ArrayI16 (v : List Int)
  | ArrayU16 (v : List Nat)
  | ArrayI32 (v : List Int)
  | ArrayU32 (v : List Nat)
  | ArrayFloat (v : List Nat)
deriving DecidableEq, Repr

/-- Enum `TagValue` from src/lib.rs lines 8-24: the crate's own closed,
width-preserving model of one auxiliary field value. -/
inductive TagValue where
  | Int8 (v : Int)
  | UInt8 (v : Nat)
  | Int16 (v : Int)
  | UInt16 (v : Nat)
  | Int32 (v : Int)
  | UInt32 (v : Nat)
  | Float (bits : Nat)
  | TagStr (v : Bytes)
  | IntArray (v : List Int)
  | UIntArray (v : List Nat)
  | Int8Array (v : List Int)
  | UInt8Array (v : List Nat)
  | Int16Array (v : List Int)
  | UInt16Array (v : List Nat)
deriving DecidableEq, Repr

/-- Embedding of `TagValue::from_aux` (src/lib.rs lines 27-45): decode a library `Aux`
value into the crate's model; unsupported encodings give `none`. -/
def TagValue.from_aux : Aux → Option TagValue
  | Aux.I8 v => some (TagValue.Int8 v)
  | Aux.U8 v => some (TagValue.UInt8 v)
  | Aux.I16 v => some (TagValue.Int16 v)
  | Aux.U16 v => some (TagValue.UInt16 v)
  | Aux.I32 v => some (TagValue.Int32 v)
  | Aux.U32 v => some (TagValue.UInt32 v)
  | Aux.Float v => some (TagValue.Float v)
  | Aux.AuxStr v => some (TagValue.TagStr v)
  | Aux.ArrayI32 v => some (TagValue.IntArray v)
  | Aux.ArrayU32 v => some (TagValue.UIntArray v)
  | Aux.ArrayI8 v => some (TagValue.Int8Array v)
  | Aux.ArrayU8 v => some (TagValue.UInt8Array v)
  | Aux.ArrayI16 v => some (TagValue.Int16Array v)
  | Aux.ArrayU16 v => some (TagValue.UInt16Array v)
  | _ => none

/-- Embedding of `TagValue::to_aux` (src/lib.rs lines 47-64): re-encode a `TagValue` as a
library `Aux` value with the original type code and width. -/
def TagValue.to_aux : TagValue → Aux
  | TagValue.Int8 v => Aux.I8 v
  | TagValue.UInt8 v => Aux.U8 v
  | TagValue.Int16 v => Aux.I16 v
  | TagValue.UInt16 v => Aux.U16 v
  | TagValue.Int32 v => Aux.I32 v
  | TagValue.UInt32 v => Aux.U32 v
  | TagValue.Float v => Aux.Float v
  | TagValue.TagStr v => Aux.AuxStr v
  | TagValue.IntArray v => Aux.ArrayI32 v
  | TagValue.UIntArray v => Aux.ArrayU32 v
  | TagValue.Int8Array v => Aux.ArrayI8 v
  | TagValue.UInt8Array v => Aux.ArrayU8 v
  | TagValue.Int16Array v => Aux.ArrayI16 v
  | TagValue.UInt16Array v => Aux.ArrayU16 v

/-- Structure `UnalignedRead` (src/lib.rs lines 67-72). -/
structure UnalignedRead where
  sequence : Bytes
  qualities : Bytes
  tags : List (Bytes × TagValue)
deriving DecidableEq, Repr

/-- Embedding of `UnalignedRead::has_tag` (src/lib.rs lines 75-77). -/
def UnalignedRead.has_tag (r : UnalignedRead) (tag_name : Bytes) : Bool :=
  r.tags.any (fun t => t.1 == tag_name)

/-- Embedding of `UnalignedRead::get_tag_value` (src/lib.rs lines 79-83). -/
def UnalignedRead.get_tag_value (r : UnalignedRead) (tag_name : Bytes) :
    Option TagValue :=
  (r.tags.find? (fun t => t.1 == tag_name)).map (fun t => t.2)

/-- Structure `Stats` (src/lib.rs lines 86-91). -/
structure Stats where
  reads_processed : Nat
  reads_modified : Nat
  reads_missing : Nat
deriving DecidableEq, Repr

/-- Embedding of `Stats::new` = `Stats::default()`: all counters zero. -/
def Stats.new : Stats :=
  { reads_processed := 0, reads_modified := 0, reads_missing := 0 }

/-- One element of `convert_cigar`'s map (src/lib.rs lines 135-144), on a raw
u32 CIGAR word.  `op >> 4` is `op / 16`, `op & 0xf` is `op % 16`, and
`(4 << 4) | op_len` is `4 * 16 + op_len` because `op_len < 16` and the low
nibble of `4 << 4 = 64` is zero. -/
def convert_cigar_word (op : Nat) : Nat :=
  let op_type := op / 16
  let op_len := op % 16
  if op_type = 5 then 4 * 16 + op_len else op

/-- Embedding of `convert_cigar` (src/lib.rs lines 133-146). -/
def convert_cigar (cigar : List Nat) : List Nat :=
  cigar.map convert_cigar_word

/-- BAM encoding of one CIGAR operation as a u32 word, as `rust_htslib`'s
`raw_cigar()` yields it and as the SAM/BAM specification fixes it: the
operation length in the high 28 bits and the operation code in the low 4 bits
(`len << 4 | op`), with op code 4 = soft clip (`BAM_CSOFT_CLIP`) and
5 = hard clip (`BAM_CHARD_CLIP`). -/
def cigar_word (len : Nat) (opCode : Nat) : Nat :=
  len * 16 + opCode % 16

/-- Operation code of a BAM-encoded CIGAR word (low 4 bits). -/
def cigarOpCode (w : Nat) : Nat := w % 16

/-- Operation length of a BAM-encoded CIGAR word (high 28 bits). -/
def cigarOpLen (w : Nat) : Nat := w / 16

/-- The specification's rewrite rule (§4.3), stated over BAM-encoded words
for comparison with `convert_cigar`: an operation whose op code is hard clip
(5) is reclassified to soft clip (4) with its length unchanged; every other
operation passes through unchanged. -/
def convert_cigar_spec (cigar : List Nat) : List Nat :=
  cigar.map (fun w => if w % 16 = 5 then (w / 16) * 16 + 4 else w)

instance exceptDecEq {ε α : Type} [DecidableEq ε] [DecidableEq α] :
    DecidableEq (Except ε α) := fun x y =>
  match x, y with
  | Except.ok a, Except.ok b =>
      if h : a = b then isTrue (by rw [h])
      else isFalse (fun hc => h (Except.ok.inj hc))
  | Except.ok _, Except.error _ => isFalse (fun hc => Except.noConfusion hc)
  | Except.error _, Except.ok _ => isFalse (fun hc => Except.noConfusion hc)
  | Except.error a, Except.error b =>
      if h : a = b then isTrue (by rw [h])
      else isFalse (fun hc => h (Except.error.inj hc))

/-- One aligned BAM record as the external reader presents it to
`process_bam_file`: the fields the crate reads (`qname`, `pos`, `mapq`,
`flags`, `raw_cigar`, sequence, qualities) plus the stream of results its
`aux_iter()` yields (a failing auxiliary field is an `error` entry). -/
structure BamRecord where
  qname : Bytes
  pos : Int
  mapq : Nat
  flags : Nat
  raw_cigar : List Nat
  sequence : Bytes
  qualities : Bytes
  aux_entries : List (Except Unit (Bytes × Aux))
deriving DecidableEq, Repr

/-- The successfully decoded auxiliary fields of a record, in order: what
`for result in buffer.aux_iter() { if let Ok((tag, value)) = result ... }`
iterates over. -/
def ok_tags (r : BamRecord) : List (Bytes × Aux) :=
  r.aux_entries.filterMap Except.toOption

/-- Embedding of `buffer.aux(tag_bytes)` from `rust_htslib`: look up the first decodable
auxiliary field with the given identifier. -/
def BamRecord.aux (r : BamRecord) (tag_bytes : Bytes) : Option Aux :=
  ((ok_tags r).find? (fun p => p.1 == tag_bytes)).map (fun p => p.2)

/-- Embedding of `buffer.aux(tag_bytes).is_ok()`. -/
def aux_is_ok (r : BamRecord) (tag_bytes : Bytes) : Bool :=
  (r.aux tag_bytes).isSome

/-- The read index (`FxHashMap<Vec<u8>, UnalignedRead>`), embedded as an
association list whose keys are kept unique by `idx_insert`. -/
abbrev ReadIndex := List (Bytes × UnalignedRead)

/-- Embedding of `HashMap::insert`: replace the binding of an existing key, otherwise add
a new one (last write wins, the tolerated duplicate-identity edge case). -/
def idx_insert (m : ReadIndex) (k : Bytes) (v : UnalignedRead) : ReadIndex :=
  if m.any (fun p => p.1 == k) then
    m.map (fun p => if p.1 == k then (k, v) else p)
  else
    m ++ [(k, v)]

/-- Embedding of `HashMap::get`. -/
def idx_get (m : ReadIndex) (k : Bytes) : Option UnalignedRead :=
  (m.find? (fun p => p.1 == k)).map (fun p => p.2)

/-- The inner tag-transfer loop of `process_bam_file` (src/lib.rs lines
223-236): for each identifier in the transfer list, the unaligned read's
value is pushed only if the identifier is exactly 2 bytes, the unaligned
read has the tag, and the aligned record does not already have it. -/
def transferred_tags (unaligned : UnalignedRead) (buffer : BamRecord)
    (transfer_tags : List Bytes) : List (Bytes × Aux) :=
  transfer_tags.filterMap (fun tag_bytes =>
    if tag_bytes.length == 2 && unaligned.has_tag tag_bytes
        && !(aux_is_ok buffer tag_bytes) then
      (unaligned.get_tag_value tag_bytes).map
        (fun value => (tag_bytes, value.to_aux))
    else
      none)

/-- The per-record body of `process_bam_file`'s loop (src/lib.rs lines
172-244), without the I/O: updates the counters and produces the record that
is written to the output stream. -/
def process_record (unaligned_index : ReadIndex) (transfer_tags : List Bytes)
    (stats : Stats) (buffer : BamRecord) : Stats × BamRecord :=
  let stats1 := { stats with reads_processed := stats.reads_processed + 1 }
  let name := buffer.qname
  let has_hard_clips := buffer.raw_cigar.any (fun op => op / 16 == 5)
  match idx_get unaligned_index name with
  | some unaligned =>
      let stats2 :=
        if has_hard_clips then
          { stats1 with reads_modified := stats1.reads_modified + 1 }
        else stats1
      let cigar :=
        if has_hard_clips then convert_cigar buffer.raw_cigar
        else buffer.raw_cigar
      let new_record : BamRecord :=
        { qname := name
          pos := buffer.pos
          mapq := buffer.mapq
          flags := buffer.flags
          raw_cigar := cigar
          sequence := unaligned.sequence
          qualities := unaligned.qualities
          aux_entries :=
            (ok_tags buffer
              ++ transferred_tags unaligned buffer transfer_tags).map
              Except.ok }
      (stats2, new_record)
  | none =>
      ({ stats1 with reads_missing := stats1.reads_missing + 1 }, buffer)

/-- The record loop of `process_bam_file`: consume the reader's stream of
results; `result?` makes any read error fatal, otherwise the record is
processed and the produced record appended to the output stream. -/
def run_records (unaligned_index : ReadIndex) (transfer_tags : List Bytes) :
    List (Except Unit BamRecord) → Stats → List BamRecord →
    Except Unit (List BamRecord × Stats)
  | [], stats, out => Except.ok (out.reverse, stats)
  | Except.error e :: _, _, _ => Except.error e
  | Except.ok buffer :: rest, stats, out =>
      let step := process_record unaligned_index transfer_tags stats buffer
      run_records unaligned_index transfer_tags rest step.1 (step.2 :: out)

/-- Embedding of `process_bam_file` (src/lib.rs lines 149-253), at the record level: the
path handling, header transfer and binary serialization are the external
container collaborator.  Returns the output record stream and the `Stats`. -/
def process_bam_file (unaligned_index : ReadIndex)
    (transfer_tags : List Bytes) (records : List (Except Unit BamRecord)) :
    Except Unit (List BamRecord × Stats) :=
  run_records unaligned_index transfer_tags records Stats.new []

/-- Number of records in the stream whose identity is found in the index. -/
def count_found (unaligned_index : ReadIndex)
    (records : List (Except Unit BamRecord)) : Nat :=
  records.countP (fun r =>
    match r with
    | Except.ok b => (idx_get unaligned_index b.qname).isSome
    | Except.error _ => false)

/-- Number of records in the stream whose identity is missing from the
index. -/
def count_missing (unaligned_index : ReadIndex)
    (records : List (Except Unit BamRecord)) : Nat :=
  records.countP (fun r =>
    match r with
    | Except.ok b => !(idx_get unaligned_index b.qname).isSome
    | Except.error _ => false)

/-- One record of the unaligned source as its reader presents it to
`create_read_index`: name, sequence bytes, quality bytes, and the stream of
results of its `aux_iter()`. -/
structure RawUnalignedRecord where
  qname : Bytes
  seq_bytes : Bytes
  qual_bytes : Bytes
  aux_entries : List (Except Unit (Bytes × Aux))
deriving DecidableEq, Repr

/-- The tag collection of `create_read_index` (src/lib.rs lines 112-119):
`aux_iter().filter_map(|result| result.ok().and_then(|(tag, aux)|
TagValue::from_aux(aux).map(|value| (tag.to_vec(), value))))`. -/
def read_tags (r : RawUnalignedRecord) : List (Bytes × TagValue) :=
  r.aux_entries.filterMap (fun result =>
    result.toOption.bind (fun p =>
      (TagValue.from_aux p.2).map (fun value => (p.1, value))))

/-- The loop of `create_read_index`: `result?` makes a record read error
fatal; otherwise the read is inserted into the index. -/
def create_read_index_go :
    List (Except Unit RawUnalignedRecord) → ReadIndex →
    Except Unit ReadIndex
  | [], index => Except.ok index
  | Except.error e :: _, _ => Except.error e
  | Except.ok r :: rest, index =>
      create_read_index_go rest
        (idx_insert index r.qname
          { sequence := r.seq_bytes
            qualities := r.qual_bytes
            tags := read_tags r })

/-- Embedding of `create_read_index` (src/lib.rs lines 101-130), over the unaligned
reader's stream of record results. -/
def create_read_index (results : List (Except Unit RawUnalignedRecord)) :
    Except Unit ReadIndex :=
  create_read_index_go results []

end Bambutler

namespace Bambutler

/-! ## Helper lemmas -/

theorem convert_cigar_word_idem (op : Nat) :
    convert_cigar_word (convert_cigar_word op) = convert_cigar_word op := by
  simp only [convert_cigar_word]
  split_ifs <;> omega

theorem find?_append_left {α : Type} (p : α → Bool) (l1 l2 : List α)
    (h : (l1.find? p).isSome = true) :
    (l1 ++ l2).find? p = l1.find? p := by
  induction l1 with
  | nil => simp [List.find?] at h
  | cons a tl ih =>
      by_cases hp : p a = true
      · simp [List.find?_cons_of_pos _ hp]
      · simp only [List.find?_cons_of_neg _ hp] at h
        simp only [List.cons_append, List.find?_cons_of_neg _ hp]
        exact ih h

theorem filterMap_toOption_ok {ε α : Type} (l : List α) :
    List.filterMap (Except.toOption ∘ (Except.ok : α → Except ε α)) l = l := by
  induction l with
  | nil => rfl
  | cons a tl ih => simp [List.filterMap_cons, Except.toOption, ih]

/-! ## Claim theorems -/

/-- Claim C1 (code bug evidence): `convert_cigar` does not reclassify hard clips.
On the BAM-encoded input `[(hard-clip,2),(match,5)]` (raw words `[37, 80]`)
the code returns `[37, 64]`: the hard-clip word passes through unchanged
(instead of becoming `36 = (soft-clip,2)`), while the length-5 match is
corrupted to `64 = (match,4)`, because the code reads the length field
(`op >> 4`) where the op code (`op & 0xf`) lives.  The specification's rule
gives `[36, 80]` on the same input. -/
theorem convert_cigar_hard_clip_divergence :
    convert_cigar [cigar_word 2 5, cigar_word 5 0] = [37, 64] ∧
    convert_cigar_spec [cigar_word 2 5, cigar_word 5 0] =
      [cigar_word 2 4, cigar_word 5 0] ∧
    cigar_word 2 5 = 37 ∧ cigar_word 2 4 = 36 ∧ cigar_word 5 0 = 80 ∧
    cigarOpCode (cigar_word 2 5) = 5 := by decide

/-- Claim C3: decoding a supported auxiliary field value and re-encoding it
reproduces the value exactly, with the identical type code and byte width:
for every `Aux` value accepted by `TagValue::from_aux`, `to_aux` of the
decoded `TagValue` is the original `Aux` value. -/
theorem from_aux_to_aux_round_trip (a : Aux) (t : TagValue)
    (h : TagValue.from_aux a = some t) : t.to_aux = a := by
  cases a <;> simp [TagValue.from_aux] at h <;> subst h <;>
    simp [TagValue.to_aux]

/-- Witness for C3: the round trip evaluated on a concrete int8 array
(`B:c`) field. -/
theorem from_aux_to_aux_round_trip_witness :
    TagValue.from_aux (Aux.ArrayI8 [-1, 2]) =
      some (TagValue.Int8Array [-1, 2]) ∧
    TagValue.to_aux (TagValue.Int8Array [-1, 2]) = Aux.ArrayI8 [-1, 2] :=
  ⟨rfl, from_aux_to_aux_round_trip (Aux.ArrayI8 [-1, 2])
    (TagValue.Int8Array [-1, 2]) rfl⟩

/-- Claim C2 (code bug evidence): the specification's R1 scenario.  The unaligned
source holds `R1` with sequence `ACGTACGT`, qualities of length 8 and tag
`mv` = uint8 array `[1,2,3]`; the aligned input holds `R1` with CIGAR
`[(hard-clip,2),(match,6)]` (raw words `[37, 96]`), a length-6 sequence and
no `mv` tag.  The output record's sequence and qualities are indeed replaced
by the indexed read's (`ACGTACGT`, length 8) and `mv` is transferred, but the
CIGAR is NOT rewritten to `[(soft-clip,2),(match,6)]` = `[36, 96]` and
`reads_modified` stays 0, because the hard-clip test reads the length bit
field. -/
theorem r1_scenario_divergence :
    (let unaligned_index : ReadIndex :=
      [([82, 49],
        { sequence := [65, 67, 71, 84, 65, 67, 71, 84]
          qualities := [20, 21, 22, 23, 24, 25, 26, 27]
          tags := [([109, 118], TagValue.UInt8Array [1, 2, 3])] })]
     let buffer : BamRecord :=
      { qname := [82, 49]
        pos := 100
        mapq := 60
        flags := 0
        raw_cigar := [cigar_word 2 5, cigar_word 6 0]
        sequence := [71, 84, 65, 67, 71, 84]
        qualities := [22, 23, 24, 25, 26, 27]
        aux_entries := [] }
     let result := process_record unaligned_index [[109, 118]] Stats.new buffer
     (result.2).sequence = [65, 67, 71, 84, 65, 67, 71, 84] ∧
     (result.2).qualities = [20, 21, 22, 23, 24, 25, 26, 27] ∧
     (result.2).aux_entries =
       [Except.ok ([109, 118], Aux.ArrayU8 [1, 2, 3])] ∧
     (result.2).raw_cigar = [cigar_word 2 5, cigar_word 6 0] ∧
     (result.2).raw_cigar ≠ [cigar_word 2 4, cigar_word 6 0] ∧
     (result.1).reads_modified = 0) := by decide

/-- Claim C4 (code bug evidence): a found record whose CIGAR is the single
operation `(match,5)` (raw word `80`, no hard clip: its op code is 0) is
nevertheless counted as modified and its CIGAR is rewritten — corrupted to
`(match,4)` (raw word `64`) — because the hard-clip test reads the length
bit field. -/
theorem no_hard_clip_record_divergence :
    (let unaligned_index : ReadIndex :=
      [([82, 51],
        { sequence := [65, 67, 71, 84, 65]
          qualities := [20, 20, 20, 20, 20]
          tags := [] })]
     let buffer : BamRecord :=
      { qname := [82, 51]
        pos := 7
        mapq := 30
        flags := 16
        raw_cigar := [cigar_word 5 0]
        sequence := [65, 67, 71, 84, 65]
        qualities := [20, 20, 20, 20, 20]
        aux_entries := [] }
     let result := process_record unaligned_index [] Stats.new buffer
     cigarOpCode (cigar_word 5 0) = 0 ∧
     (result.2).raw_cigar = [cigar_word 4 0] ∧
     (result.2).raw_cigar ≠ buffer.raw_cigar ∧
     (result.1).reads_modified = 1) := by decide

/-- Claim C5: a record whose identity is absent from the index is passed through
to the output exactly as it came in, `reads_missing` grows by exactly one
(and no other counter beyond `reads_processed` changes), and the record loop
continues processing the rest of the stream without error. -/
theorem missing_read_passthrough (unaligned_index : ReadIndex)
    (transfer_tags : List Bytes) (stats : Stats) (buffer : BamRecord)
    (rest : List (Except Unit BamRecord)) (acc : List BamRecord)
    (h : idx_get unaligned_index buffer.qname = none) :
    process_record unaligned_index transfer_tags stats buffer =
      ({ reads_processed := stats.reads_processed + 1
         reads_modified := stats.reads_modified
         reads_missing := stats.reads_missing + 1 }, buffer) ∧
    run_records unaligned_index transfer_tags
        (Except.ok buffer :: rest) stats acc =
      run_records unaligned_index transfer_tags rest
        { reads_processed := stats.reads_processed + 1
          reads_modified := stats.reads_modified
          reads_missing := stats.reads_missing + 1 } (buffer :: acc) := by
  obtain ⟨p, m, mi⟩ := stats
  constructor
  · simp [process_record, h]
  · simp [run_records, process_record, h]

/-- Witness for C5 at a concrete record and the empty index. -/
theorem missing_read_passthrough_witness :
    process_record [] [] Stats.new
        { qname := [82, 50], pos := 0, mapq := 0, flags := 0,
          raw_cigar := [cigar_word 3 0],
          sequence := [65, 67, 71], qualities := [20, 20, 20],
          aux_entries := [] } =
      ({ reads_processed := 1, reads_modified := 0, reads_missing := 1 },
        { qname := [82, 50], pos := 0, mapq := 0, flags := 0,
          raw_cigar := [cigar_word 3 0],
          sequence := [65, 67, 71], qualities := [20, 20, 20],
          aux_entries := [] }) ∧
    run_records [] []
        [Except.ok
          { qname := [82, 50], pos := 0, mapq := 0, flags := 0,
            raw_cigar := [cigar_word 3 0],
            sequence := [65, 67, 71], qualities := [20, 20, 20],
            aux_entries := [] }] Stats.new [] =
      run_records [] [] []
        { reads_processed := 1, reads_modified := 0, reads_missing := 1 }
        [{ qname := [82, 50], pos := 0, mapq := 0, flags := 0,
           raw_cigar := [cigar_word 3 0],
           sequence := [65, 67, 71], qualities := [20, 20, 20],
           aux_entries := [] }] :=
  missing_read_passthrough [] [] Stats.new
    { qname := [82, 50], pos := 0, mapq := 0, flags := 0,
      raw_cigar := [cigar_word 3 0],
      sequence := [65, 67, 71], qualities := [20, 20, 20],
      aux_entries := [] } [] [] rfl

/-- Claim C10: for a record whose identity is found in the index, the output
record keeps the input record's read name, position, mapping quality and
flags. -/
theorem found_record_preserves_core_fields (unaligned_index : ReadIndex)
    (transfer_tags : List Bytes) (stats : Stats) (buffer : BamRecord)
    (unaligned : UnalignedRead)
    (h : idx_get unaligned_index buffer.qname = some unaligned) :
    ((process_record unaligned_index transfer_tags stats buffer).2).qname =
      buffer.qname ∧
    ((process_record unaligned_index transfer_tags stats buffer).2).pos =
      buffer.pos ∧
    ((process_record unaligned_index transfer_tags stats buffer).2).mapq =
      buffer.mapq ∧
    ((process_record unaligned_index transfer_tags stats buffer).2).flags =
      buffer.flags := by
  simp [process_record, h]

/-- Witness for C10 at a concrete found record. -/
theorem found_record_preserves_core_fields_witness :
    ((process_record
        [([82, 52], { sequence := [67], qualities := [25], tags := [] })]
        [] Stats.new
        { qname := [82, 52], pos := 11, mapq := 42, flags := 99,
          raw_cigar := [cigar_word 1 0], sequence := [84],
          qualities := [10], aux_entries := [] }).2).qname = [82, 52] ∧
    ((process_record
        [([82, 52], { sequence := [67], qualities := [25], tags := [] })]
        [] Stats.new
        { qname := [82, 52], pos := 11, mapq := 42, flags := 99,
          raw_cigar := [cigar_word 1 0], sequence := [84],
          qualities := [10], aux_entries := [] }).2).pos = 11 ∧
    ((process_record
        [([82, 52], { sequence := [67], qualities := [25], tags := [] })]
        [] Stats.new
        { qname := [82, 52], pos := 11, mapq := 42, flags := 99,
          raw_cigar := [cigar_word 1 0], sequence := [84],
          qualities := [10], aux_entries := [] }).2).mapq = 42 ∧
    ((process_record
        [([82, 52], { sequence := [67], qualities := [25], tags := [] })]
        [] Stats.new
        { qname := [82, 52], pos := 11, mapq := 42, flags := 99,
          raw_cigar := [cigar_word 1 0], sequence := [84],
          qualities := [10], aux_entries := [] }).2).flags = 99 :=
  found_record_preserves_core_fields
    [([82, 52], { sequence := [67], qualities := [25], tags := [] })]
    [] Stats.new
    { qname := [82, 52], pos := 11, mapq := 42, flags := 99,
      raw_cigar := [cigar_word 1 0], sequence := [84],
      qualities := [10], aux_entries := [] }
    { sequence := [67], qualities := [25], tags := [] } rfl

/-- Claim C7: `convert_cigar` is idempotent on every CIGAR word sequence. -/
theorem convert_cigar_idempotent (x : List Nat) :
    convert_cigar (convert_cigar x) = convert_cigar x := by
  induction x with
  | nil => rfl
  | cons a tl ih =>
      simp only [convert_cigar, List.map_cons] at ih ⊢
      rw [convert_cigar_word_idem, ih]

/-- Claim C6: for a found record, the output tag set is the aligned record's own
decodable tags followed by the transferred ones; a value is transferred for
an identifier only if it is in the transfer list, is exactly 2 bytes long,
the unaligned read carries it and the aligned record does not (so an
identifier that is not 2 bytes long is merely skipped); and for an
identifier the aligned record does carry, the output surfaces the aligned
side's value. -/
theorem tag_transfer_policy (unaligned_index : ReadIndex)
    (transfer_tags : List Bytes) (stats : Stats) (buffer : BamRecord)
    (unaligned : UnalignedRead) (t : Bytes) (v : Aux) (t2 : Bytes)
    (h : idx_get unaligned_index buffer.qname = some unaligned) :
    ((process_record unaligned_index transfer_tags stats buffer).2).aux_entries =
      (ok_tags buffer
        ++ transferred_tags unaligned buffer transfer_tags).map Except.ok ∧
    ((t, v) ∈ transferred_tags unaligned buffer transfer_tags →
      t ∈ transfer_tags ∧ t.length = 2 ∧ unaligned.has_tag t = true ∧
      aux_is_ok buffer t = false ∧
      (unaligned.get_tag_value t).map TagValue.to_aux = some v) ∧
    (aux_is_ok buffer t2 = true →
      BamRecord.aux
          (process_record unaligned_index transfer_tags stats buffer).2 t2 =
        BamRecord.aux buffer t2) := by
  refine ⟨by simp [process_record, h], ?_, ?_⟩
  · intro hm
    rw [transferred_tags, List.mem_filterMap] at hm
    obtain ⟨s, hs, hf⟩ := hm
    by_cases hc : (s.length == 2 && unaligned.has_tag s
        && !(aux_is_ok buffer s)) = true
    · rw [if_pos hc] at hf
      rw [Option.map_eq_some'] at hf
      obtain ⟨tv, hget, heq⟩ := hf
      obtain ⟨hst, hsv⟩ := Prod.mk.injEq .. ▸ heq
      subst hst
      simp only [Bool.and_eq_true, beq_iff_eq, Bool.not_eq_true'] at hc
      exact ⟨hs, hc.1.1, hc.1.2, hc.2, by rw [hget]; simpa using hsv⟩
    · rw [if_neg hc] at hf
      exact absurd hf (by simp)
  · intro hok
    have hout :
        ok_tags (process_record unaligned_index transfer_tags stats buffer).2 =
          ok_tags buffer ++ transferred_tags unaligned buffer transfer_tags := by
      simp [process_record, h, ok_tags, List.filterMap_map,
        filterMap_toOption_ok]
    rw [BamRecord.aux, hout, BamRecord.aux]
    rw [find?_append_left]
    rw [aux_is_ok, BamRecord.aux] at hok
    simpa using hok

/-- Witness for C6: aligned record carries `NM`, the unaligned read carries
`mv` and a conflicting `NM`; the transfer list holds `mv`, `NM` and a 1-byte
identifier.  Only `mv` is transferred and `NM` surfaces the aligned value. -/
theorem tag_transfer_policy_witness :
    ((process_record
        [([82, 53],
          { sequence := [65], qualities := [20]
            tags := [([109, 118], TagValue.UInt8Array [1, 2, 3]),
                     ([78, 77], TagValue.Int32 9)] })]
        [[109, 118], [78, 77], [120]] Stats.new
        { qname := [82, 53], pos := 0, mapq := 0, flags := 0,
          raw_cigar := [cigar_word 1 0], sequence := [71],
          qualities := [10],
          aux_entries := [Except.ok ([78, 77], Aux.I32 1)] }).2).aux_entries =
      (ok_tags
        { qname := [82, 53], pos := 0, mapq := 0, flags := 0,
          raw_cigar := [cigar_word 1 0], sequence := [71],
          qualities := [10],
          aux_entries := [Except.ok ([78, 77], Aux.I32 1)] }
        ++ transferred_tags
            { sequence := [65], qualities := [20]
              tags := [([109, 118], TagValue.UInt8Array [1, 2, 3]),
                       ([78, 77], TagValue.Int32 9)] }
            { qname := [82, 53], pos := 0, mapq := 0, flags := 0,
              raw_cigar := [cigar_word 1 0], sequence := [71],
              qualities := [10],
              aux_entries := [Except.ok ([78, 77], Aux.I32 1)] }
            [[109, 118], [78, 77], [120]]).map Except.ok ∧
    ([109, 118] ∈ ([[109, 118], [78, 77], [120]] : List Bytes) ∧
      List.length [109, 118] = 2 ∧
      UnalignedRead.has_tag
        { sequence := [65], qualities := [20]
          tags := [([109, 118], TagValue.UInt8Array [1, 2, 3]),
                   ([78, 77], TagValue.Int32 9)] } [109, 118] = true ∧
      aux_is_ok
        { qname := [82, 53], pos := 0, mapq := 0, flags := 0,
          raw_cigar := [cigar_word 1 0], sequence := [71],
          qualities := [10],
          aux_entries := [Except.ok ([78, 77], Aux.I32 1)] } [109, 118] =
        false ∧
      (UnalignedRead.get_tag_value
        { sequence := [65], qualities := [20]
          tags := [([109, 118], TagValue.UInt8Array [1, 2, 3]),
                   ([78, 77], TagValue.Int32 9)] } [109, 118]).map
          TagValue.to_aux = some (Aux.ArrayU8 [1, 2, 3])) ∧
    BamRecord.aux
        (process_record
          [([82, 53],
            { sequence := [65], qualities := [20]
              tags := [([109, 118], TagValue.UInt8Array [1, 2, 3]),
                       ([78, 77], TagValue.Int32 9)] })]
          [[109, 118], [78, 77], [120]] Stats.new
          { qname := [82, 53], pos := 0, mapq := 0, flags := 0,
            raw_cigar := [cigar_word 1 0], sequence := [71],
            qualities := [10],
            aux_entries := [Except.ok ([78, 77], Aux.I32 1)] }).2 [78, 77] =
      some (Aux.I32 1) :=
  ⟨(tag_transfer_policy
      [([82, 53],
        { sequence := [65], qualities := [20]
          tags := [([109, 118], TagValue.UInt8Array [1, 2, 3]),
                   ([78, 77], TagValue.Int32 9)] })]
      [[109, 118], [78, 77], [120]] Stats.new
      { qname := [82, 53], pos := 0, mapq := 0, flags := 0,
        raw_cigar := [cigar_word 1 0], sequence := [71],
        qualities := [10],
        aux_entries := [Except.ok ([78, 77], Aux.I32 1)] }
      { sequence := [65], qualities := [20]
        tags := [([109, 118], TagValue.UInt8Array [1, 2, 3]),
                 ([78, 77], TagValue.Int32 9)] }
      [109, 118] (Aux.ArrayU8 [1, 2, 3]) [78, 77] rfl).1,
   (tag_transfer_policy
      [([82, 53],
        { sequence := [65], qualities := [20]
          tags := [([109, 118], TagValue.UInt8Array [1, 2, 3]),
                   ([78, 77], TagValue.Int32 9)] })]
      [[109, 118], [78, 77], [120]] Stats.new
      { qname := [82, 53], pos := 0, mapq := 0, flags := 0,
        raw_cigar := [cigar_word 1 0], sequence := [71],
        qualities := [10],
        aux_entries := [Except.ok ([78, 77], Aux.I32 1)] }
      { sequence := [65], qualities := [20]
        tags := [([109, 118], TagValue.UInt8Array [1, 2, 3]),
                 ([78, 77], TagValue.Int32 9)] }
      [109, 118] (Aux.ArrayU8 [1, 2, 3]) [78, 77] rfl).2.1 (by decide),
   by
    have hm :=
      (tag_transfer_policy
        [([82, 53],
          { sequence := [65], qualities := [20]
            tags := [([109, 118], TagValue.UInt8Array [1, 2, 3]),
                     ([78, 77], TagValue.Int32 9)] })]
        [[109, 118], [78, 77], [120]] Stats.new
        { qname := [82, 53], pos := 0, mapq := 0, flags := 0,
          raw_cigar := [cigar_word 1 0], sequence := [71],
          qualities := [10],
          aux_entries := [Except.ok ([78, 77], Aux.I32 1)] }
        { sequence := [65], qualities := [20]
          tags := [([109, 118], TagValue.UInt8Array [1, 2, 3]),
                   ([78, 77], TagValue.Int32 9)] }
        [109, 118] (Aux.ArrayU8 [1, 2, 3]) [78, 77] rfl).2.2 (by decide)
    rw [hm]; decide⟩

end Bambutler

namespace Bambutler

/-- Per-step behaviour of the three counters in `process_record`:
`reads_processed` grows by exactly one, `reads_modified` grows by at most
one and never shrinks, and `reads_missing` grows by one exactly when the
identity is absent from the index. -/
theorem process_record_stats (unaligned_index : ReadIndex)
    (transfer_tags : List Bytes) (stats : Stats) (buffer : BamRecord) :
    ((process_record unaligned_index transfer_tags stats buffer).1).reads_processed =
      stats.reads_processed + 1 ∧
    stats.reads_modified ≤
      ((process_record unaligned_index transfer_tags stats buffer).1).reads_modified ∧
    ((process_record unaligned_index transfer_tags stats buffer).1).reads_modified ≤
      stats.reads_modified + 1 ∧
    ((process_record unaligned_index transfer_tags stats buffer).1).reads_missing =
      stats.reads_missing +
        (if (idx_get unaligned_index buffer.qname).isSome then 0 else 1) := by
  cases hidx : idx_get unaligned_index buffer.qname with
  | none => simp [process_record, hidx]
  | some u =>
      by_cases hhc : buffer.raw_cigar.any (fun op => op / 16 == 5) = true
      · simp [process_record, hidx, hhc]
      · simp [process_record, hidx, hhc]

/-- Counter bookkeeping of the whole record loop, generalized over the
starting counters and output accumulator. -/
theorem run_records_stats (unaligned_index : ReadIndex)
    (transfer_tags : List Bytes) (records : List (Except Unit BamRecord)) :
    ∀ (stats : Stats) (acc out : List BamRecord) (final : Stats),
      run_records unaligned_index transfer_tags records stats acc =
        Except.ok (out, final) →
      final.reads_processed = stats.reads_processed + records.length ∧
      final.reads_missing =
        stats.reads_missing + count_missing unaligned_index records ∧
      stats.reads_modified ≤ final.reads_modified ∧
      final.reads_modified ≤ stats.reads_modified + records.length ∧
      count_found unaligned_index records
          + count_missing unaligned_index records = records.length := by
  induction records with
  | nil =>
      intro stats acc out final h
      simp only [run_records, Except.ok.injEq, Prod.mk.injEq] at h
      obtain ⟨-, h2⟩ := h
      subst h2
      simp [count_found, count_missing]
  | cons r rest ih =>
      intro stats acc out final h
      cases r with
      | error e => simp [run_records] at h
      | ok b =>
          simp only [run_records] at h
          have hstep :=
            process_record_stats unaligned_index transfer_tags stats b
          have htail :=
            ih (process_record unaligned_index transfer_tags stats b).1
              ((process_record unaligned_index transfer_tags stats b).2 :: acc)
              out final h
          obtain ⟨hp, hmo1, hmo2, hmi⟩ := hstep
          obtain ⟨tp, tmi, tmo1, tmo2, tcnt⟩ := htail
          cases hidx : idx_get unaligned_index b.qname with
          | none =>
              rw [hidx] at hmi
              simp only [Option.isSome_none, Bool.false_eq_true,
                if_false] at hmi
              have hcf : count_found unaligned_index (Except.ok b :: rest) =
                  count_found unaligned_index rest := by
                simp [count_found, List.countP_cons, hidx]
              have hcm : count_missing unaligned_index (Except.ok b :: rest) =
                  count_missing unaligned_index rest + 1 := by
                simp [count_missing, List.countP_cons, hidx]
              rw [hcf, hcm]
              simp only [List.length_cons]
              omega
          | some u =>
              rw [hidx] at hmi
              simp only [Option.isSome_some, if_true] at hmi
              have hcf : count_found unaligned_index (Except.ok b :: rest) =
                  count_found unaligned_index rest + 1 := by
                simp [count_found, List.countP_cons, hidx]
              have hcm : count_missing unaligned_index (Except.ok b :: rest) =
                  count_missing unaligned_index rest := by
                simp [count_missing, List.countP_cons, hidx]
              rw [hcf, hcm]
              simp only [List.length_cons]
              omega

/-- Claim C8: for any successful run over a record stream, `reads_processed`
equals the number of records, `reads_modified ≤ reads_processed`,
`reads_missing` plus the number of found identities equals
`reads_processed`; the counters start at zero (`Stats::new`) and no step of
the loop ever decreases any of them. -/
theorem stats_counter_invariants (unaligned_index : ReadIndex)
    (transfer_tags : List Bytes) (records : List (Except Unit BamRecord))
    (out : List BamRecord) (stats : Stats) (s : Stats) (b : BamRecord)
    (h : process_bam_file unaligned_index transfer_tags records =
      Except.ok (out, stats)) :
    stats.reads_processed = records.length ∧
    stats.reads_modified ≤ stats.reads_processed ∧
    stats.reads_missing + count_found unaligned_index records =
      stats.reads_processed ∧
    Stats.new.reads_processed = 0 ∧
    Stats.new.reads_modified = 0 ∧
    Stats.new.reads_missing = 0 ∧
    s.reads_processed ≤
      ((process_record unaligned_index transfer_tags s b).1).reads_processed ∧
    s.reads_modified ≤
      ((process_record unaligned_index transfer_tags s b).1).reads_modified ∧
    s.reads_missing ≤
      ((process_record unaligned_index transfer_tags s b).1).reads_missing := by
  have H := run_records_stats unaligned_index transfer_tags records
    Stats.new [] out stats h
  have hs := process_record_stats unaligned_index transfer_tags s b
  obtain ⟨hp, hmi, hmo1, hmo2, hcnt⟩ := H
  obtain ⟨sp, smo1, smo2, smi⟩ := hs
  have hz1 : Stats.new.reads_processed = 0 := rfl
  have hz2 : Stats.new.reads_modified = 0 := rfl
  have hz3 : Stats.new.reads_missing = 0 := rfl
  refine ⟨by omega, by omega, by omega, hz1, hz2, hz3, by omega, smo1, ?_⟩
  cases hb : idx_get unaligned_index b.qname with
  | none => rw [hb] at smi; simp at smi; omega
  | some u => rw [hb] at smi; simp at smi; omega

/-- Witness for C8: the empty run (no records) from `Stats::new`, with the
per-step monotonicity instantiated at a concrete record and counters. -/
theorem stats_counter_invariants_witness :
    Stats.new.reads_processed =
      ([] : List (Except Unit BamRecord)).length ∧
    Stats.new.reads_modified ≤ Stats.new.reads_processed ∧
    Stats.new.reads_missing + count_found [] [] =
      Stats.new.reads_processed ∧
    Stats.new.reads_processed = 0 ∧
    Stats.new.reads_modified = 0 ∧
    Stats.new.reads_missing = 0 ∧
    Stats.new.reads_processed ≤
      ((process_record [] [] Stats.new
        { qname := [82, 54], pos := 0, mapq := 0, flags := 0,
          raw_cigar := [], sequence := [], qualities := [],
          aux_entries := [] }).1).reads_processed ∧
    Stats.new.reads_modified ≤
      ((process_record [] [] Stats.new
        { qname := [82, 54], pos := 0, mapq := 0, flags := 0,
          raw_cigar := [], sequence := [], qualities := [],
          aux_entries := [] }).1).reads_modified ∧
    Stats.new.reads_missing ≤
      ((process_record [] [] Stats.new
        { qname := [82, 54], pos := 0, mapq := 0, flags := 0,
          raw_cigar := [], sequence := [], qualities := [],
          aux_entries := [] }).1).reads_missing :=
  stats_counter_invariants [] [] [] [] Stats.new Stats.new
    { qname := [82, 54], pos := 0, mapq := 0, flags := 0,
      raw_cigar := [], sequence := [], qualities := [],
      aux_entries := [] } rfl

/-- Claim C9 counterexample: an auxiliary-field decode failure on the unaligned
source is NOT fatal.  `create_read_index` on a stream with one well-read
record whose `aux_iter()` yields one decode error returns a populated index
(the read is inserted with the failing field silently dropped) instead of an
error. -/
theorem create_read_index_aux_error_not_fatal :
    create_read_index [Except.ok
      { qname := [82, 49], seq_bytes := [65], qual_bytes := [20],
        aux_entries := [Except.error ()] }] =
    Except.ok [([82, 49],
      { sequence := [65], qualities := [20], tags := [] })] := by decide

theorem create_read_index_go_error
    (results : List (Except Unit RawUnalignedRecord)) :
    ∀ index : ReadIndex, Except.error () ∈ results →
      create_read_index_go results index = Except.error () := by
  induction results with
  | nil => intro index h; cases h
  | cons r rest ih =>
      intro index h
      cases r with
      | error e => rfl
      | ok rr =>
          rw [create_read_index_go]
          apply ih
          rcases List.mem_cons.mp h with h1 | h1
          · exact absurd h1 (by simp)
          · exact h1

/-- Claim C9 (amended): a record-level decode failure on the unaligned source is
fatal — `create_read_index` returns an error rather than a partial index —
while an auxiliary-field decode failure is skipped, indexing the read
without that field. -/
theorem create_read_index_record_error_fatal
    (results : List (Except Unit RawUnalignedRecord))
    (h : Except.error () ∈ results) :
    create_read_index results = Except.error () := by
  rw [create_read_index]
  exact create_read_index_go_error results [] h

/-- Witness for C9: a stream whose only entry is a record read error. -/
theorem create_read_index_record_error_fatal_witness :
    create_read_index [Except.error ()] = Except.error () :=
  create_read_index_record_error_fatal [Except.error ()] (by decide)

end Bambutler
